import Mathlib

/-!
The language catalog projection and the bulk-copy cursor of seer.

A shallow embedding of `pkg/db/languages.go` and of two helpers of `internal/util.go`:

* `LanguagesNonPgtype.Load` (the decoding of the catalog document),
* `LanguagesNonPgtype.ToPgType` (the row projection),
* `LanguageColumns` (the bulk-copy column list),
* `Language.MarshalZerologObject` (the structured-log view of a row),
* `LanguageCopyFrom.Next` / `LanguageCopyFrom.Values` (the copy source cursor),
* `PromptForPickFromSlice` and `OpenURL`.

Go `string` is `String`, `[]string` is `List String`, `int32` values are `Int`
(reduced with `toInt32` where the source converts), and the cursor index, a Go
`int`, is an `Int` that `wrapInt` keeps in the 64-bit two's complement range.
A run-time panic (slice index out of range) is an explicit outcome. Calls that
leave the repository (HTTP, YAML, standard input, process start) are parameters.
-/

namespace Seer

set_option linter.dupNamespace false

/-! ## Machine integers -/

/-- Largest `int32`, Go's `math.MaxInt32`. -/
def MaxInt32 : Int := 2147483647

/-- Go conversion `int32(x)` of an `int`: two's complement truncation to 32 bits. -/
def toInt32 (x : Int) : Int := (x + 2147483648) % 4294967296 - 2147483648

/-- Arithmetic on a Go `int` (64 bits): the result wraps around in two's complement. -/
def wrapInt (x : Int) : Int :=
  (x + 9223372036854775808) % 18446744073709551616 - 9223372036854775808

/-! ## Data model -/

/-- Go `string`. -/
abbrev GoString := String

/-- Go `bool`. -/
abbrev GoBool := Bool

/-- Optional text column of the driver, `pgtype.Text`: a backing string and a presence flag. -/
structure pgtype.Text where
  String : GoString
  Valid : GoBool
  deriving DecidableEq, Repr

/-- Optional boolean column of the driver, `pgtype.Bool`. -/
structure pgtype.Bool where
  Bool : GoBool
  Valid : GoBool
  deriving DecidableEq, Repr

/-- Modelled from the spec: the generated storage enumeration `LanguageType`, whose declaration
is not among the sources. The source converts it with `string(l.Type.LanguageType)`, so it is a
string type; its zero value is the empty string. -/
abbrev LanguageType := GoString

/-- Zero value of `LanguageType`: what `var ltype LanguageType` holds before any assignment. -/
def LanguageType.zero : LanguageType := ""

/-- Modelled from the spec: the three generated enumeration constants that `ToPgType` uses
(`LanguageTypeData`, `LanguageTypeMarkup`, `LanguageTypeProse`). Their declarations are not among
the sources, so the projection takes them as a parameter. -/
structure LanguageTypeConsts where
  LanguageTypeData : LanguageType
  LanguageTypeMarkup : LanguageType
  LanguageTypeProse : LanguageType
  deriving DecidableEq, Repr

/-- An instance of the constants for the examples, with three distinct values. Neither the
sources nor the spec give the values of the generated constants; the theorems about `ToPgType`
hold for every instance, and this one only serves where an example needs a concrete one. -/
def sampleLanguageTypes : LanguageTypeConsts :=
  { LanguageTypeData := "data", LanguageTypeMarkup := "markup", LanguageTypeProse := "prose" }

/-- Modelled from the spec: the value of the generated constant `LanguageTypeData`, whose
declaration is not among the sources. The spec says that an empty category projects to absent
with the enumeration's zero value as backing, and the backing value the source writes there is
`LanguageTypeData`: so the constant is the zero value of the enumeration. -/
def LanguageTypeData : LanguageType := LanguageType.zero

/-- Modelled from the spec: the constants of `ToPgType` with `LanguageTypeData` as the spec
gives it. The spec says nothing of the values of the other two, which stay parameters. -/
def specLanguageTypes (markup prose : LanguageType) : LanguageTypeConsts :=
  { LanguageTypeData := LanguageTypeData, LanguageTypeMarkup := markup,
    LanguageTypeProse := prose }

/-- Modelled from the spec: the generated nullable enumeration `NullLanguageType`, used by the
source as `NullLanguageType{LanguageType: ..., Valid: ...}`. -/
structure NullLanguageType where
  LanguageType : LanguageType
  Valid : GoBool
  deriving DecidableEq, Repr

/-- Decoded catalog entry, `LanguageNonPgtype` (the field `Type` is written `Type_`). -/
structure LanguageNonPgtype where
  Name : GoString
  FsName : GoString
  Type_ : GoString
  Aliases : List GoString
  AceMode : GoString
  CodemirrorMode : GoString
  CodemirrorMimeType : GoString
  Wrap : GoBool
  Extensions : List GoString
  Filenames : List GoString
  Interpreters : List GoString
  LanguageID : Int
  Color : GoString
  TmScope : GoString
  Group : GoString
  deriving DecidableEq, Repr

/-- Collection of decoded catalog entries, `LanguagesNonPgtype`. -/
abbrev LanguagesNonPgtype := List LanguageNonPgtype

/-- Modelled from the spec: the generated storage row `Language`, whose declaration is not among
the sources; its fields and their types are the ones `ToPgType`, `MarshalZerologObject` and
`Values` read and write. -/
structure Language where
  ID : Int
  Name : GoString
  FsName : pgtype.Text
  Type_ : NullLanguageType
  Aliases : List GoString
  AceMode : pgtype.Text
  CodemirrorMode : pgtype.Text
  CodemirrorMimeType : pgtype.Text
  Wrap : pgtype.Bool
  Extensions : List GoString
  Filenames : List GoString
  Interpreters : List GoString
  LanguageID : Int
  Color : pgtype.Text
  TmScope : pgtype.Text
  Group : pgtype.Text
  deriving DecidableEq, Repr

/-- Zero value of `Language`: every field at its Go zero value. -/
def Language.zero : Language :=
  { ID := 0, Name := "", FsName := ⟨"", false⟩, Type_ := ⟨LanguageType.zero, false⟩,
    Aliases := [], AceMode := ⟨"", false⟩, CodemirrorMode := ⟨"", false⟩,
    CodemirrorMimeType := ⟨"", false⟩, Wrap := ⟨false, false⟩, Extensions := [],
    Filenames := [], Interpreters := [], LanguageID := 0, Color := ⟨"", false⟩,
    TmScope := ⟨"", false⟩, Group := ⟨"", false⟩ }

/-! ## Row projection -/

/-- Body of the loop of `ToPgType`: the row built from one catalog entry. The source fills a
struct literal (`Name` to `Wrap`) and then assigns each remaining field once, in an `if`/`else`
of its own; the identifier is not assigned and keeps its zero value. -/
def ToPgType.row (C : LanguageTypeConsts) (lang : LanguageNonPgtype) : Language :=
  { Name := lang.Name
    Aliases := lang.Aliases
    Extensions := lang.Extensions
    Filenames := lang.Filenames
    Interpreters := lang.Filenames
    LanguageID := lang.LanguageID
    Wrap := { Bool := lang.Wrap, Valid := true }
    FsName :=
      if lang.FsName ≠ "" then { String := lang.FsName, Valid := true }
      else { String := "", Valid := true }
    Type_ :=
      if lang.Type_ ≠ "" then
        let ltype : LanguageType :=
          if lang.Type_ = "data" then C.LanguageTypeData
          else if lang.Type_ = "programming" then C.LanguageTypeData
          else if lang.Type_ = "markup" then C.LanguageTypeMarkup
          else if lang.Type_ = "prose" then C.LanguageTypeProse
          else LanguageType.zero
        { LanguageType := ltype, Valid := true }
      else { LanguageType := C.LanguageTypeData, Valid := false }
    AceMode :=
      if lang.AceMode ≠ "" then { String := lang.AceMode, Valid := true }
      else { String := "", Valid := false }
    CodemirrorMode :=
      if lang.CodemirrorMode ≠ "" then { String := lang.CodemirrorMode, Valid := true }
      else { String := "", Valid := false }
    CodemirrorMimeType :=
      if lang.CodemirrorMimeType ≠ "" then { String := lang.CodemirrorMimeType, Valid := true }
      else { String := "", Valid := false }
    Color :=
      if lang.Color ≠ "" then { String := lang.Color, Valid := true }
      else { String := "", Valid := false }
    Group :=
      if lang.Group ≠ "" then { String := lang.Group, Valid := true }
      else { String := "", Valid := false }
    TmScope :=
      if lang.TmScope ≠ "" then { String := lang.TmScope, Valid := true }
      else { String := "", Valid := false }
    ID := 0 }

/-- The method `ToPgType`: starting from an empty slice, the row of every entry is appended in
turn. -/
def LanguagesNonPgtype.ToPgType (C : LanguageTypeConsts) (l : LanguagesNonPgtype) :
    List Language :=
  l.foldl (fun dbLanguages lang => dbLanguages ++ [ToPgType.row C lang]) []

/-- The function `LanguageColumns`: the column list handed to the bulk copy. -/
def LanguageColumns : List GoString :=
  [ "id",
    "name",
    "fs_name",
    "type",
    "aliases",
    "ace_mode",
    "codemirror_mode",
    "codemirror_mime_type",
    "wrap",
    "extensions",
    "filenames",
    "interpreters",
    "language_id",
    "color",
    "tm_scope",
    "group" ]

/-! ## Structured-log view of a row -/

/-- One field written to a log event: the key and the logged value. -/
inductive LogField
  | Int32 (key : GoString) (v : Int)
  | Str (key : GoString) (v : GoString)
  | Strs (key : GoString) (v : List GoString)
  | Bool (key : GoString) (v : GoBool)
  deriving DecidableEq, Repr

/-- Key of a logged field. -/
def LogField.key : LogField → GoString
  | .Int32 k _ => k
  | .Str k _ => k
  | .Strs k _ => k
  | .Bool k _ => k

/-- The method `MarshalZerologObject`: the fields a row adds to a log event, in the order of the
calls. -/
def Language.MarshalZerologObject (l : Language) : List LogField :=
  [ .Int32 "id" l.ID,
    .Str "name" l.Name,
    .Str "fs_name" l.FsName.String,
    .Str "type" l.Type_.LanguageType,
    .Strs "aliases" l.Aliases,
    .Str "ace_mode" l.AceMode.String,
    .Str "codemirror_mode" l.CodemirrorMode.String,
    .Str "codemirror_mime_type" l.CodemirrorMimeType.String,
    .Bool "wrap" l.Wrap.Bool,
    .Strs "extensions" l.Extensions,
    .Strs "filenames" l.Filenames,
    .Strs "interpreters" l.Interpreters,
    .Int32 "language_id" l.LanguageID,
    .Str "color" l.Color.String,
    .Str "tm_scope" l.TmScope.String,
    .Str "group" l.Group.String ]

/-! ## Bulk-copy cursor -/

/-- A Go value of interface type `any`, as `Values` puts it in its result: the dynamic type and
the value. -/
inductive Any
  | int32 (v : Int)
  | string (v : GoString)
  | Text (v : pgtype.Text)
  | NullLanguageType (v : NullLanguageType)
  | strings (v : List GoString)
  | Bool (v : pgtype.Bool)
  deriving DecidableEq, Repr

/-- A Go `error` value made by `fmt.Errorf`: its message. -/
structure GoError where
  msg : GoString
  deriving DecidableEq, Repr

/-- What a call of `Values` does: it panics (slice index out of range), or it returns the pair
`([]any, error)`, where `none` is Go's `nil`. -/
inductive ValuesResult
  | panic
  | ret (values : Option (List Any)) (err : Option GoError)
  deriving DecidableEq, Repr

/-- The copy source `LanguageCopyFrom`: the rows and the cursor index `i`. -/
structure LanguageCopyFrom where
  Languages : List Language
  i : Int
  deriving DecidableEq, Repr

/-- A fresh cursor, `new(LanguageCopyFrom)` with `Languages` assigned: the index is zero. -/
def LanguageCopyFrom.fresh (Languages : List Language) : LanguageCopyFrom :=
  { Languages := Languages, i := 0 }

/-- The length `len(l.Languages)` as a Go `int`. -/
def LanguageCopyFrom.len (l : LanguageCopyFrom) : Int := (l.Languages.length : Int)

/-- The method `Next`: increments the index, then reports whether it is below the number of rows.
Returns the updated cursor and the boolean. -/
def LanguageCopyFrom.Next (l : LanguageCopyFrom) : LanguageCopyFrom × GoBool :=
  let l : LanguageCopyFrom := { l with i := wrapInt (l.i + 1) }
  (l, decide (l.i < l.len))

/-- The sixteen values `Values` returns for the row `lang`, in the order of the source. -/
def Values.row (lang : Language) : List Any :=
  [ .int32 lang.ID,
    .string lang.Name,
    .Text lang.FsName,
    .NullLanguageType lang.Type_,
    .strings lang.Aliases,
    .Text lang.AceMode,
    .Text lang.CodemirrorMode,
    .Text lang.CodemirrorMimeType,
    .Bool lang.Wrap,
    .strings lang.Extensions,
    .strings lang.Filenames,
    .strings lang.Interpreters,
    .int32 lang.LanguageID,
    .Text lang.Color,
    .Text lang.TmScope,
    .Text lang.Group ]

/-- The method `Values`: reads `l.Languages[l.i]` first (a panic when the index is out of
range), then checks the index against the length and against `math.MaxInt32`, overwrites the
identifier of its copy of the row with `int32(l.i - 1)` and returns the sixteen values. The
cursor itself is not changed. -/
def LanguageCopyFrom.Values (l : LanguageCopyFrom) : ValuesResult :=
  if l.i < 0 then .panic
  else
    match l.Languages[l.i.toNat]? with
    | none => .panic
    | some lang =>
      if l.i ≥ l.len then .ret none none
      else if l.i > MaxInt32 then
        .ret none (some ⟨"index " ++ toString l.i ++ " exceeds maximum value for int32"⟩)
      else
        let lang : Language := { lang with ID := toInt32 (l.i - 1) }
        .ret (some (Values.row lang)) none

/-- The method `Err`: always `nil`. -/
def LanguageCopyFrom.Err (_l : LanguageCopyFrom) : Option GoError := none

/-- Why a bulk copy stopped pulling rows: `Next` returned false, or `Values` did not hand over
a row (the outcome is kept). -/
inductive CopyStop
  | exhausted
  | aborted (r : ValuesResult)
  deriving DecidableEq, Repr

/-- Record of one bulk copy over a cursor: the rows pulled, in order, why it stopped, and the
cursor as it was left. -/
structure CopyTrace where
  rows : List (List Any)
  stop : CopyStop
  final : LanguageCopyFrom
  deriving DecidableEq, Repr

/-- The consumer side of the copy source contract, as the bulk copy drives it: call `Next`;
while it returned true call `Values`, keep the row, then call `Next` again. The loop ends at the
first `Next` that returns false, and also when `Values` panics or returns no row. Each call of
`Next` uses one unit of `fuel`; `none` means the fuel ran out. -/
def CopyFrom : Nat → LanguageCopyFrom → Option CopyTrace
  | 0, _ => none
  | fuel + 1, l =>
    let (l, more) := l.Next
    if more then
      match l.Values with
      | .ret (some values) none =>
        (CopyFrom fuel l).map (fun t => { t with rows := values :: t.rows })
      | r => some { rows := [], stop := .aborted r, final := l }
    else
      some { rows := [], stop := .exhausted, final := l }

/-! ## Loading the catalog -/

/-- The calls `Load` makes outside the repository, each with its result or error: `fetch` is
the HTTP request for the remote path with the reading of the response body, `UnmarshalMap` the
YAML decode of the body into `map[string]interface{}`, given as the entries in the order in which
`range` visits them (Go leaves that order unspecified), `Marshal` the re-encoding of one value,
and `Unmarshal` the decode of the re-encoded value into a `LanguageNonPgtype`. -/
structure LoadEnv (B V E : Type) where
  fetch : GoString → Except GoError B
  UnmarshalMap : B → Except GoError (List (GoString × V))
  Marshal : V → Except GoError E
  Unmarshal : E → Except GoError LanguageNonPgtype

/-- The loop of `Load` over the mapping entries, on the receiver `l`: every entry is re-encoded
and decoded, the key becomes its `Name` and it is appended to the receiver; at the first entry
whose re-encoding or decoding fails the method logs and returns. -/
def Load.entries {B V E : Type} (env : LoadEnv B V E) :
    List (GoString × V) → LanguagesNonPgtype → LanguagesNonPgtype
  | [], l => l
  | (k, v) :: rest, l =>
    match env.Marshal v with
    | .error _ => l
    | .ok mv =>
      match env.Unmarshal mv with
      | .error _ => l
      | .ok language => Load.entries env rest (l ++ [{ language with Name := k }])

/-- The method `Load` on the receiver `l`; the result is the receiver when the method
returns. -/
def LanguagesNonPgtype.Load {B V E : Type} (env : LoadEnv B V E) (l : LanguagesNonPgtype)
    (remote_path : GoString) : LanguagesNonPgtype :=
  match env.fetch remote_path with
  | .error _ => l
  | .ok resp_bytes =>
    match env.UnmarshalMap resp_bytes with
    | .error _ => l
    | .ok languageYaml => Load.entries env languageYaml l

/-- The rows `migrate` hands to the bulk copy when the table is empty: `Load` on a nil
receiver, then `ToPgType`. -/
def migrate.Languages {B V E : Type} (env : LoadEnv B V E) (C : LanguageTypeConsts)
    (LinguistLanguageRemotePath : GoString) : List Language :=
  LanguagesNonPgtype.ToPgType C (LanguagesNonPgtype.Load env [] LinguistLanguageRemotePath)

/-! ## Picking from a slice -/

/-- What a call of `PromptForPickFromSlice` does: it panics (slice index out of range), or it
returns the triple `(T, int, error)`. -/
inductive PickResult (T : Type)
  | panic
  | ret (item : T) (index : Int) (err : Option GoError)
  deriving DecidableEq, Repr

/-- The function `PromptForPickFromSlice`. The pair `prompted` is what `PromptFor(message)`
returned, `Atoi` is `strconv.Atoi` and `zero` the zero value of `T`. -/
def PromptForPickFromSlice {T : Type} (zero : T) (prompted : GoString × Option GoError)
    (Atoi : GoString → Except GoError Int) (slice : List T) : PickResult T :=
  match prompted with
  | (choice_str, some _) => .ret zero 0 (some ⟨"failed to prompt user: " ++ choice_str⟩)
  | (choice_str, none) =>
    match Atoi choice_str with
    | .error _ => .ret zero 0 (some ⟨"invalid number input"⟩)
    | .ok choice =>
      if choice ≥ (slice.length : Int) then .ret zero 0 (some ⟨"choice is not in list"⟩)
      else if choice < 0 then .panic
      else
        match slice[choice.toNat]? with
        | none => .panic
        | some item => .ret item choice none

/-! ## Opening a URL -/

/-- The command and the arguments `OpenURL` hands to `exec.Command`, for the value `GOOS` of
`runtime.GOOS` and the result `isWSL` of the call `isWSL()` (made in the default case only). -/
def OpenURL.command (GOOS : GoString) (isWSL : GoBool) (url : GoString) :
    GoString × List GoString :=
  let (cmd, args) : GoString × List GoString :=
    if GOOS = "windows" then ("cmd", ["/c", "start"])
    else if GOOS = "darwin" then ("open", [url])
    else if isWSL then ("cmd.exe", ["/c", "start", url])
    else ("xdg-open", [url])
  let args : List GoString :=
    if args.length > 1 then args.take 1 ++ ([""] ++ args.drop 1) else args
  (cmd, args)

/-- The function `OpenURL`; `Start` is the start of the command, with its error or `nil`. -/
def OpenURL (Start : GoString → List GoString → Option GoError) (GOOS : GoString)
    (isWSL : GoBool) (url : GoString) : Option GoError :=
  let (cmd, args) := OpenURL.command GOOS isWSL url
  match Start cmd args with
  | some err =>
    some ⟨"error executing " ++ cmd ++ " " ++ String.intercalate "," args ++ ": " ++ err.msg⟩
  | none => none

end Seer

namespace Seer

/-! ## Machine integer lemmas -/

theorem wrapInt_eq_self (x : Int) (h1 : -9223372036854775808 ≤ x)
    (h2 : x < 9223372036854775808) : wrapInt x = x := by
  unfold wrapInt
  omega

theorem toInt32_eq_self (x : Int) (h1 : -2147483648 ≤ x) (h2 : x ≤ 2147483647) :
    toInt32 x = x := by
  unfold toInt32
  omega

/-! ## One step of the cursor -/

theorem Next_of_small (L : List Language) (i : Int) (h0 : 0 ≤ i) (h1 : i ≤ 2147483648) :
    (LanguageCopyFrom.mk L i).Next = (LanguageCopyFrom.mk L (i + 1), decide (i + 1 < L.length)) := by
  have hw : wrapInt (i + 1) = i + 1 := wrapInt_eq_self _ (by omega) (by omega)
  simp [LanguageCopyFrom.Next, LanguageCopyFrom.len, hw]

theorem Values_at (L : List Language) (i : Nat) (lang : Language) (hl : L[i]? = some lang)
    (h2 : (i : Int) ≤ MaxInt32) :
    (LanguageCopyFrom.mk L i).Values
      = .ret (some (Values.row { lang with ID := (i : Int) - 1 })) none := by
  have hlt : i < L.length := by
    rcases List.getElem?_eq_some_iff.mp hl with ⟨h, _⟩
    exact h
  have h32 : toInt32 ((i : Int) - 1) = (i : Int) - 1 :=
    toInt32_eq_self _ (by omega) (by unfold MaxInt32 at h2; omega)
  have hnot : ¬ ((L.length : Int) ≤ (i : Int)) := by omega
  have hnot2 : ¬ (MaxInt32 < (i : Int)) := by omega
  simp [LanguageCopyFrom.Values, LanguageCopyFrom.len, hl, h32, hnot, hnot2]

theorem Values_out_of_range (L : List Language) (i : Int) (h : (L.length : Int) ≤ i) :
    (LanguageCopyFrom.mk L i).Values = .panic := by
  have h0 : ¬ (i < 0) := by omega
  have hn : L[i.toNat]? = none := by
    apply List.getElem?_eq_none
    omega
  simp [LanguageCopyFrom.Values, h0, hn]

theorem Values_too_large (L : List Language) (i : Nat) (hi : i < L.length)
    (h2 : MaxInt32 < (i : Int)) :
    ∃ e, (LanguageCopyFrom.mk L i).Values = .ret none (some e) := by
  have hnot : ¬ ((L.length : Int) ≤ (i : Int)) := by omega
  refine ⟨⟨"index " ++ toString (i : Int) ++ " exceeds maximum value for int32"⟩, ?_⟩
  simp [LanguageCopyFrom.Values, LanguageCopyFrom.len, List.getElem?_eq_getElem hi, hnot, h2]

/-! ## The copy loop -/

/-- The rows a copy hands over while the cursor index runs from `i` to the last row: row `j`
of the list with its identifier replaced by `j - 1`. -/
def yieldedFrom (L : List Language) (i : Nat) : List (List Any) :=
  ((L.drop i).enumFrom i).map (fun p => Values.row { p.2 with ID := (p.1 : Int) - 1 })

theorem yieldedFrom_of_le (L : List Language) (i : Nat) (h : L.length ≤ i) :
    yieldedFrom L i = [] := by
  simp [yieldedFrom, List.drop_eq_nil_of_le h]

theorem yieldedFrom_of_lt (L : List Language) (i : Nat) (h : i < L.length) :
    yieldedFrom L i
      = Values.row { L[i] with ID := (i : Int) - 1 } :: yieldedFrom L (i + 1) := by
  unfold yieldedFrom
  rw [List.drop_eq_getElem_cons h, List.enumFrom_cons, List.map_cons]

theorem yieldedFrom_length (L : List Language) (i : Nat) :
    (yieldedFrom L i).length = L.length - i := by
  simp [yieldedFrom]

theorem yieldedFrom_getElem? (L : List Language) (i k : Nat) (lang : Language)
    (h : L[i + k]? = some lang) :
    (yieldedFrom L i)[k]? = some (Values.row { lang with ID := ((i + k : Nat) : Int) - 1 }) := by
  unfold yieldedFrom
  rw [List.getElem?_map, List.getElem?_enumFrom, List.getElem?_drop, h]
  rfl

/-- While every cursor index stays within `int32`, the copy loop started at index `i` hands over
the rows at the indices `i + 1, ..., n - 1` and ends at the first `Next` that returns false. -/
theorem CopyFrom_run (L : List Language) (hn : (L.length : Int) ≤ MaxInt32 + 1) :
    ∀ (fuel i : Nat), 0 < fuel → i ≤ L.length → L.length ≤ fuel + i →
      CopyFrom fuel (LanguageCopyFrom.mk L i)
        = some { rows := yieldedFrom L (i + 1), stop := .exhausted,
                 final := LanguageCopyFrom.mk L (max L.length (i + 1) : Nat) } := by
  unfold MaxInt32 at hn
  intro fuel
  induction fuel with
  | zero => intro i h; omega
  | succ f ih =>
    intro i _ hi hfl
    have hc : ((i : Int) + 1) = ((i + 1 : Nat) : Int) := by push_cast; rfl
    rw [CopyFrom, Next_of_small L i (by omega) (by omega), hc]
    by_cases hlt : i + 1 < L.length
    · have hd : (((i + 1 : Nat) : Int) < (L.length : Int)) := by omega
      have hv := Values_at L (i + 1) L[i + 1] (List.getElem?_eq_getElem hlt)
        (by unfold MaxInt32; omega)
      have hm : max L.length (i + 1 + 1) = max L.length (i + 1) := by omega
      simp only [hd, decide_True, if_true, hv]
      rw [ih (i + 1) (by omega) (by omega) (by omega), yieldedFrom_of_lt L (i + 1) hlt, hm]
      simp
    · have hd : ¬ (((i + 1 : Nat) : Int) < (L.length : Int)) := by omega
      have hm : max L.length (i + 1) = i + 1 := by omega
      simp only [hd, decide_False, Bool.false_eq_true, if_false,
        yieldedFrom_of_le L (i + 1) (by omega), hm]

/-- When the row at index `2 ^ 31` exists, the copy loop started at an index `i` within `int32`
hands over the rows up to index `MaxInt32` and is then aborted by the error `Values` returns
at index `2 ^ 31`. -/
theorem CopyFrom_abort (L : List Language) (hn : 2147483648 < L.length) :
    ∀ (fuel i : Nat), i ≤ 2147483647 → 2147483648 ≤ fuel + i →
      ∃ t e, CopyFrom fuel (LanguageCopyFrom.mk L i) = some t
        ∧ t.stop = .aborted (.ret none (some e))
        ∧ t.rows.length = 2147483647 - i
        ∧ t.final = LanguageCopyFrom.mk L 2147483648 := by
  intro fuel
  induction fuel with
  | zero => intro i h1 h2; omega
  | succ f ih =>
    intro i hi hfl
    have hc : ((i : Int) + 1) = ((i + 1 : Nat) : Int) := by push_cast; rfl
    rw [CopyFrom, Next_of_small L i (by omega) (by omega), hc]
    have hd : (((i + 1 : Nat) : Int) < (L.length : Int)) := by omega
    by_cases h32 : i + 1 ≤ 2147483647
    · have hv := Values_at L (i + 1) L[i + 1] (List.getElem?_eq_getElem (by omega))
        (by unfold MaxInt32; omega)
      obtain ⟨t, e, ht, hs, hr, hfin⟩ := ih (i + 1) h32 (by omega)
      refine ⟨{ t with rows := Values.row { L[i + 1] with ID := ((i + 1 : Nat) : Int) - 1 }
                  :: t.rows }, e, ?_, hs, ?_, hfin⟩
      · simp only [hd, decide_True, if_true, hv, ht, Option.map_some']
      · simp only [List.length_cons, hr]
        omega
    · obtain ⟨e, he⟩ := Values_too_large L (i + 1) (by omega) (by unfold MaxInt32; omega)
      have hi1 : i + 1 = 2147483648 := by omega
      refine ⟨{ rows := [], stop := .aborted (.ret none (some e)),
                final := LanguageCopyFrom.mk L ((i + 1 : Nat) : Int) }, e, ?_, rfl, ?_, ?_⟩
      · simp only [hd, decide_True, if_true, he]
      · simp only [List.length_nil]
        omega
      · simp only [hi1]
        rfl

/-! ## Example inputs -/

/-- A three-row table whose stored identifiers (77, 78, 79) differ from the positions. -/
def sampleRows : List Language :=
  [ { Language.zero with ID := 77, Name := "Ada", LanguageID := 11 },
    { Language.zero with ID := 78, Name := "Go", LanguageID := 132 },
    { Language.zero with ID := 79, Name := "Rust", LanguageID := 327 } ]

/-- A table of `2 ^ 31 + 2` rows: its index `2 ^ 31` is a row, and is above `MaxInt32`. -/
def hugeRows : List Language := List.replicate 2147483650 Language.zero

theorem hugeRows_length : hugeRows.length = 2147483650 := List.length_replicate _ _

/-! ## The cursor skips the first row and numbers from zero -/

/-- C1 (counterexample): over a table of `2 ^ 31 + 2` rows the copy does not hand over
`n - 1 = 2 ^ 31 + 1` rows and does not end at a `Next` that returns false: after the
`2 ^ 31 - 1` rows at the indices `1, ..., MaxInt32` it is aborted by the error that `Values`
returns at index `2 ^ 31`. -/
theorem CopyFrom_hugeRows_aborts :
    ∃ t e, CopyFrom 2147483651 (LanguageCopyFrom.fresh hugeRows) = some t
      ∧ t.stop = .aborted (.ret none (some e))
      ∧ t.stop ≠ .exhausted
      ∧ t.rows.length = 2147483647
      ∧ t.rows.length ≠ hugeRows.length - 1 := by
  obtain ⟨t, e, ht, hs, hr, _⟩ :=
    CopyFrom_abort hugeRows (by rw [hugeRows_length]; omega) 2147483651 0 (by omega) (by omega)
  refine ⟨t, e, ht, hs, ?_, hr, ?_⟩
  · rw [hs]
    exact fun h => CopyStop.noConfusion h
  · rw [hr, hugeRows_length]
    omega

/-- C1 (amended): for every table `Languages` of `n ≤ MaxInt32 + 1` rows, a fresh cursor driven
by the copy loop (with fuel for its `Next` calls) returns; it hands over exactly `n - 1` rows,
the `k`-th of them being the values of `Languages[k + 1]` with the identifier `k`, so that
`Languages[0]` is never handed over; and it ends at the first `Next` that returns false, which
leaves the index at `max n 1`. -/
theorem CopyFrom_fresh_skips_first (Languages : List Language)
    (hn : (Languages.length : Int) ≤ MaxInt32 + 1) (fuel : Nat)
    (hf : Languages.length < fuel) :
    ∃ t, CopyFrom fuel (LanguageCopyFrom.fresh Languages) = some t
      ∧ t.stop = .exhausted
      ∧ t.final = LanguageCopyFrom.mk Languages (max Languages.length 1 : Nat)
      ∧ t.rows.length = Languages.length - 1
      ∧ (∀ k lang, Languages[k + 1]? = some lang →
          t.rows[k]? = some (Values.row { lang with ID := (k : Int) }))
      ∧ t.rows = Languages.tail.enum.map (fun p => Values.row { p.2 with ID := (p.1 : Int) }) := by
  have h := CopyFrom_run Languages hn fuel 0 (by omega) (by omega) (by omega)
  refine ⟨_, h, rfl, rfl, ?_, ?_, ?_⟩
  · simp [yieldedFrom_length]
  · intro k lang hk
    have hk1 : Languages[1 + k]? = some lang := by rw [Nat.add_comm]; exact hk
    have := yieldedFrom_getElem? Languages 1 k lang hk1
    simpa using this
  · show yieldedFrom Languages (0 + 1) = _
    apply List.ext_getElem?
    intro k
    cases hk : Languages[1 + k]? with
    | none =>
      have hlen : Languages.length ≤ 1 + k := List.getElem?_eq_none_iff.mp hk
      rw [List.getElem?_eq_none, List.getElem?_eq_none]
      · simp [List.enum]; omega
      · simp [yieldedFrom_length]; omega
    | some lang =>
      have := yieldedFrom_getElem? Languages 1 k lang hk
      have hk2 : Languages[k + 1]? = some lang := by rw [Nat.add_comm]; exact hk
      simp [this, List.enum, List.getElem?_enumFrom, hk2]

/-- C1 (witness): the three-row sample table, with fuel 4. -/
theorem CopyFrom_fresh_skips_first_witness :
    ((sampleRows.length : Int) ≤ MaxInt32 + 1 ∧ sampleRows.length < 4)
      ∧ ∃ t, CopyFrom 4 (LanguageCopyFrom.fresh sampleRows) = some t
          ∧ t.stop = .exhausted
          ∧ t.final = LanguageCopyFrom.mk sampleRows (max sampleRows.length 1 : Nat)
          ∧ t.rows.length = sampleRows.length - 1
          ∧ (∀ k lang, sampleRows[k + 1]? = some lang →
              t.rows[k]? = some (Values.row { lang with ID := (k : Int) }))
          ∧ t.rows = sampleRows.tail.enum.map
              (fun p => Values.row { p.2 with ID := (p.1 : Int) }) :=
  ⟨⟨by decide, by decide⟩, CopyFrom_fresh_skips_first sampleRows (by decide) 4 (by decide)⟩

/-- When the row at index `2 ^ 31` exists, a copy loop with too little fuel to reach that index
does not return. -/
theorem CopyFrom_out_of_fuel (L : List Language) (hn : 2147483648 < L.length) :
    ∀ (fuel i : Nat), fuel + i < 2147483648 → CopyFrom fuel (LanguageCopyFrom.mk L i) = none := by
  intro fuel
  induction fuel with
  | zero => intro i _; rfl
  | succ f ih =>
    intro i hfl
    have hc : ((i : Int) + 1) = ((i + 1 : Nat) : Int) := by push_cast; rfl
    rw [CopyFrom, Next_of_small L i (by omega) (by omega), hc]
    have hd : (((i + 1 : Nat) : Int) < (L.length : Int)) := by omega
    have hv := Values_at L (i + 1) L[i + 1] (List.getElem?_eq_getElem (by omega))
      (by unfold MaxInt32; omega)
    simp only [hd, decide_True, if_true, hv, ih (i + 1) (by omega), Option.map_none']

/-- C2 (counterexample): over the table of `n = 2 ^ 31 + 2` rows the rows of a full traversal do
not carry the identifiers `0, 1, ..., n - 2`. With enough fuel the copy loop returns, and
whatever the fuel, a loop that returns has handed over `2 ^ 31 - 1` rows only: no row carries
the identifier `2 ^ 31 - 1`, which is below `n - 1`. -/
theorem CopyFrom_hugeRows_identifiers :
    (∃ t, CopyFrom 2147483651 (LanguageCopyFrom.fresh hugeRows) = some t)
      ∧ ∀ fuel t, CopyFrom fuel (LanguageCopyFrom.fresh hugeRows) = some t →
          t.rows.length = 2147483647
            ∧ 2147483647 < hugeRows.length - 1
            ∧ (t.rows[2147483647]?).bind List.head? ≠ some (Any.int32 2147483647) := by
  have hlen : 2147483648 < hugeRows.length := by rw [hugeRows_length]; omega
  constructor
  · obtain ⟨t, _, ht, _⟩ := CopyFrom_abort hugeRows hlen 2147483651 0 (by omega) (by omega)
    exact ⟨t, ht⟩
  · intro fuel t ht
    by_cases hf : 2147483648 ≤ fuel
    · obtain ⟨t1, _, ht1, _, hr, _⟩ := CopyFrom_abort hugeRows hlen fuel 0 (by omega) (by omega)
      have heq : t = t1 := by
        have h1 : CopyFrom fuel (LanguageCopyFrom.fresh hugeRows) = some t1 := ht1
        rw [ht] at h1
        exact Option.some.inj h1
      subst heq
      have hr1 : t.rows.length = 2147483647 := by rw [hr]
      refine ⟨hr1, by rw [hugeRows_length]; omega, ?_⟩
      rw [List.getElem?_eq_none (by omega)]
      simp
    · have hnone := CopyFrom_out_of_fuel hugeRows hlen fuel 0 (by omega)
      have h1 : CopyFrom fuel (LanguageCopyFrom.fresh hugeRows) = none := hnone
      rw [ht] at h1
      exact Option.noConfusion h1

/-- C2 (amended): at every cursor index `i` with `0 ≤ i < len(Languages)` and `i ≤ MaxInt32`,
`Values` returns no error and the sixteen values of a row whose identifier is `i - 1`, whatever the
identifier and the taxonomy identifier stored in `Languages[i]` are, and whose other fields are
those of `Languages[i]`. So for a table of `n ≤ MaxInt32 + 1` rows, the rows of a full
traversal by the copy loop carry the identifiers `0, 1, ..., n - 2` in order. -/
theorem Values_identifier (l : LanguageCopyFrom) (h0 : 0 ≤ l.i)
    (h1 : l.i < (l.Languages.length : Int)) (h2 : l.i ≤ MaxInt32) :
    (∃ lang, l.Languages[l.i.toNat]? = some lang
      ∧ l.Values = .ret (some
          [ .int32 (l.i - 1),
            .string lang.Name,
            .Text lang.FsName,
            .NullLanguageType lang.Type_,
            .strings lang.Aliases,
            .Text lang.AceMode,
            .Text lang.CodemirrorMode,
            .Text lang.CodemirrorMimeType,
            .Bool lang.Wrap,
            .strings lang.Extensions,
            .strings lang.Filenames,
            .strings lang.Interpreters,
            .int32 lang.LanguageID,
            .Text lang.Color,
            .Text lang.TmScope,
            .Text lang.Group ]) none)
    ∧ ((l.Languages.length : Int) ≤ MaxInt32 + 1 → ∀ fuel, l.Languages.length < fuel →
        ∃ t, CopyFrom fuel (LanguageCopyFrom.fresh l.Languages) = some t
          ∧ t.rows.length = l.Languages.length - 1
          ∧ ∀ k, k < l.Languages.length - 1 →
              (t.rows[k]?).bind List.head? = some (Any.int32 (k : Int))) := by
  constructor
  · obtain ⟨L, i⟩ := l
    simp only at h0 h1 h2
    have hi : i.toNat < L.length := by omega
    refine ⟨L[i.toNat], List.getElem?_eq_getElem hi, ?_⟩
    have hv := Values_at L i.toNat L[i.toNat] (List.getElem?_eq_getElem hi)
      (by rw [Int.toNat_of_nonneg h0]; exact h2)
    rw [Int.toNat_of_nonneg h0] at hv
    simpa [Values.row] using hv
  · intro hn fuel hf
    have h := CopyFrom_run l.Languages hn fuel 0 (by omega) (by omega) (by omega)
    refine ⟨_, h, ?_, ?_⟩
    · simp [yieldedFrom_length]
    · intro k hk
      have hk1 : 1 + k < l.Languages.length := by omega
      have := yieldedFrom_getElem? l.Languages 1 k _ (List.getElem?_eq_getElem hk1)
      simp [this, Values.row]

/-- C2 (witness): the cursor at index 1 of the three-row sample table. -/
theorem Values_identifier_witness :
    (∃ lang, sampleRows[(1 : Int).toNat]? = some lang
      ∧ (LanguageCopyFrom.mk sampleRows 1).Values = .ret (some
          [ .int32 (1 - 1),
            .string lang.Name,
            .Text lang.FsName,
            .NullLanguageType lang.Type_,
            .strings lang.Aliases,
            .Text lang.AceMode,
            .Text lang.CodemirrorMode,
            .Text lang.CodemirrorMimeType,
            .Bool lang.Wrap,
            .strings lang.Extensions,
            .strings lang.Filenames,
            .strings lang.Interpreters,
            .int32 lang.LanguageID,
            .Text lang.Color,
            .Text lang.TmScope,
            .Text lang.Group ]) none)
    ∧ ((sampleRows.length : Int) ≤ MaxInt32 + 1 → ∀ fuel, sampleRows.length < fuel →
        ∃ t, CopyFrom fuel (LanguageCopyFrom.fresh sampleRows) = some t
          ∧ t.rows.length = sampleRows.length - 1
          ∧ ∀ k, k < sampleRows.length - 1 →
              (t.rows[k]?).bind List.head? = some (Any.int32 (k : Int))) :=
  Values_identifier (LanguageCopyFrom.mk sampleRows 1) (by decide) (by decide) (by decide)

/-! ## `Values` at an invalid position -/

/-- After a `Next` that returned false, `Values` panics: the index is out of range. -/
theorem Values_after_exhausted (l : LanguageCopyFrom) (h : l.Next.2 = false) :
    l.Next.1.Values = .panic := by
  obtain ⟨L, i⟩ := l
  simp only [LanguageCopyFrom.Next, LanguageCopyFrom.len, decide_eq_false_iff_not, not_lt] at h
  exact Values_out_of_range L _ h

/-- On a fresh cursor over an empty table, `Values` panics. -/
theorem Values_fresh_nil : (LanguageCopyFrom.fresh []).Values = .panic := by
  decide

/-- C3 (the code at the failing input): on a fresh cursor over a non-empty table, before any
`Next`, `Values` returns no error and a row: the values of the first row `Languages[0]` with
the identifier `-1`. -/
theorem Values_fresh_returns_row (lang : Language) (rest : List Language) :
    (LanguageCopyFrom.fresh (lang :: rest)).Values
      = .ret (some (Values.row { lang with ID := -1 })) none := by
  have h := Values_at (lang :: rest) 0 lang (by simp) (by decide)
  simpa [LanguageCopyFrom.fresh] using h

/-! ## The projection, row by row -/

theorem foldl_append_singleton {α β : Type} (f : α → β) (l : List α) :
    ∀ acc : List β, l.foldl (fun acc a => acc ++ [f a]) acc = acc ++ l.map f := by
  induction l with
  | nil => intro acc; simp
  | cons a l ih => intro acc; simp [ih]

/-- The loop of `ToPgType` builds the list of the rows of the entries, in order. -/
theorem ToPgType_eq_map (C : LanguageTypeConsts) (l : LanguagesNonPgtype) :
    l.ToPgType C = l.map (ToPgType.row C) := by
  unfold LanguagesNonPgtype.ToPgType
  rw [foldl_append_singleton]
  rfl

theorem ToPgType_getElem? (C : LanguageTypeConsts) (l : LanguagesNonPgtype) (i : Nat)
    (lang : LanguageNonPgtype) (h : l[i]? = some lang) :
    (l.ToPgType C)[i]? = some (ToPgType.row C lang) := by
  rw [ToPgType_eq_map, List.getElem?_map, h]
  rfl

/-- A catalog entry with every optional string field filled and an unrecognized category. -/
def filledEntry : LanguageNonPgtype :=
  { Name := "Zig", FsName := "zig-lang", Type_ := "wingding", Aliases := ["ziglang"],
    AceMode := "text", CodemirrorMode := "clike", CodemirrorMimeType := "text/x-zig",
    Wrap := true, Extensions := [".zig", ".zon"], Filenames := ["build.zig"],
    Interpreters := ["zig"], LanguageID := 646424281, Color := "#ec915c",
    TmScope := "source.zig", Group := "Systems" }

/-- A catalog entry with every optional field empty: only the name and the taxonomy identifier
are set. -/
def bareEntry : LanguageNonPgtype :=
  { Name := "Text", FsName := "", Type_ := "", Aliases := [], AceMode := "",
    CodemirrorMode := "", CodemirrorMimeType := "", Wrap := false, Extensions := [],
    Filenames := [], Interpreters := [], LanguageID := 372, Color := "", TmScope := "",
    Group := "" }

/-- The two-entry catalog of the spec's round-trip example. -/
def goRustCatalog : LanguagesNonPgtype :=
  [ { bareEntry with Name := "Go", Type_ := "programming", LanguageID := 1 },
    { bareEntry with Name := "Rust", Type_ := "programming", LanguageID := 2 } ]

/-! ## Optional string fields -/

/-- C4: for every catalog, every entry `lang` of it and each of the optional string fields
`FsName`, `AceMode`, `CodemirrorMode`, `CodemirrorMimeType`, `Color`, `TmScope` and `Group`:
if the source string is not empty, the row `ToPgType` produces for the entry has the field
present (`Valid = true`) with `String` equal to the source string. -/
theorem ToPgType_nonempty_present (C : LanguageTypeConsts) (l : LanguagesNonPgtype) (i : Nat)
    (lang : LanguageNonPgtype) (h : l[i]? = some lang) :
    ∃ row, (l.ToPgType C)[i]? = some row
      ∧ (lang.FsName ≠ "" → row.FsName = { String := lang.FsName, Valid := true })
      ∧ (lang.AceMode ≠ "" → row.AceMode = { String := lang.AceMode, Valid := true })
      ∧ (lang.CodemirrorMode ≠ "" →
          row.CodemirrorMode = { String := lang.CodemirrorMode, Valid := true })
      ∧ (lang.CodemirrorMimeType ≠ "" →
          row.CodemirrorMimeType = { String := lang.CodemirrorMimeType, Valid := true })
      ∧ (lang.Color ≠ "" → row.Color = { String := lang.Color, Valid := true })
      ∧ (lang.TmScope ≠ "" → row.TmScope = { String := lang.TmScope, Valid := true })
      ∧ (lang.Group ≠ "" → row.Group = { String := lang.Group, Valid := true }) := by
  refine ⟨ToPgType.row C lang, ToPgType_getElem? C l i lang h, ?_, ?_, ?_, ?_, ?_, ?_, ?_⟩ <;>
    intro hne <;> simp [ToPgType.row, hne]

/-- C4 (witness): the entry with every optional string field filled, second in a catalog. -/
theorem ToPgType_nonempty_present_witness :
    [bareEntry, filledEntry][1]? = some filledEntry
      ∧ ∃ row, (LanguagesNonPgtype.ToPgType sampleLanguageTypes [bareEntry, filledEntry])[1]?
            = some row
          ∧ (filledEntry.FsName ≠ "" → row.FsName = { String := filledEntry.FsName, Valid := true })
          ∧ (filledEntry.AceMode ≠ "" →
              row.AceMode = { String := filledEntry.AceMode, Valid := true })
          ∧ (filledEntry.CodemirrorMode ≠ "" →
              row.CodemirrorMode = { String := filledEntry.CodemirrorMode, Valid := true })
          ∧ (filledEntry.CodemirrorMimeType ≠ "" →
              row.CodemirrorMimeType = { String := filledEntry.CodemirrorMimeType, Valid := true })
          ∧ (filledEntry.Color ≠ "" → row.Color = { String := filledEntry.Color, Valid := true })
          ∧ (filledEntry.TmScope ≠ "" →
              row.TmScope = { String := filledEntry.TmScope, Valid := true })
          ∧ (filledEntry.Group ≠ "" → row.Group = { String := filledEntry.Group, Valid := true }) :=
  ⟨rfl, ToPgType_nonempty_present sampleLanguageTypes [bareEntry, filledEntry] 1 filledEntry rfl⟩

/-- For the six optional string fields other than `FsName`, an empty source string projects to
an absent field with an empty backing string. -/
theorem ToPgType_empty_absent (C : LanguageTypeConsts) (l : LanguagesNonPgtype) (i : Nat)
    (lang : LanguageNonPgtype) (h : l[i]? = some lang) :
    ∃ row, (l.ToPgType C)[i]? = some row
      ∧ (lang.AceMode = "" → row.AceMode = { String := "", Valid := false })
      ∧ (lang.CodemirrorMode = "" → row.CodemirrorMode = { String := "", Valid := false })
      ∧ (lang.CodemirrorMimeType = "" →
          row.CodemirrorMimeType = { String := "", Valid := false })
      ∧ (lang.Color = "" → row.Color = { String := "", Valid := false })
      ∧ (lang.TmScope = "" → row.TmScope = { String := "", Valid := false })
      ∧ (lang.Group = "" → row.Group = { String := "", Valid := false }) := by
  refine ⟨ToPgType.row C lang, ToPgType_getElem? C l i lang h, ?_, ?_, ?_, ?_, ?_, ?_⟩ <;>
    intro he <;> simp [ToPgType.row, he]

/-- C5 (the code at the failing input): an entry whose `FsName` is empty projects to a row whose
`FsName` is present (`Valid = true`) with an empty backing string, not absent. -/
theorem ToPgType_empty_FsName_present (C : LanguageTypeConsts) (lang : LanguageNonPgtype) :
    (LanguagesNonPgtype.ToPgType C [{ lang with FsName := "" }]).map Language.FsName
      = [{ String := "", Valid := true }] := by
  simp [ToPgType_eq_map, ToPgType.row]

/-! ## Category -/

/-- C6: for every entry whose `Type` string is not empty, the row `ToPgType` produces has the
category present (`Valid = true`), and its member is the markup constant for `"markup"`, the
prose constant for `"prose"`, the data constant for `"data"` and for `"programming"`, and the
zero value of `LanguageType` for every other string. -/
theorem ToPgType_category_present (C : LanguageTypeConsts) (l : LanguagesNonPgtype) (i : Nat)
    (lang : LanguageNonPgtype) (h : l[i]? = some lang) (hne : lang.Type_ ≠ "") :
    ∃ row, (l.ToPgType C)[i]? = some row
      ∧ row.Type_.Valid = true
      ∧ (lang.Type_ = "markup" → row.Type_.LanguageType = C.LanguageTypeMarkup)
      ∧ (lang.Type_ = "prose" → row.Type_.LanguageType = C.LanguageTypeProse)
      ∧ (lang.Type_ = "data" → row.Type_.LanguageType = C.LanguageTypeData)
      ∧ (lang.Type_ = "programming" → row.Type_.LanguageType = C.LanguageTypeData)
      ∧ (lang.Type_ ≠ "markup" → lang.Type_ ≠ "prose" → lang.Type_ ≠ "data" →
          lang.Type_ ≠ "programming" → row.Type_.LanguageType = LanguageType.zero) := by
  refine ⟨ToPgType.row C lang, ToPgType_getElem? C l i lang h, ?_, ?_, ?_, ?_, ?_, ?_⟩
  · simp [ToPgType.row, hne]
  · intro he; simp [ToPgType.row, he]
  · intro he; simp [ToPgType.row, he]
  · intro he; simp [ToPgType.row, he]
  · intro he; simp [ToPgType.row, he]
  · intro h1 h2 h3 h4; simp [ToPgType.row, hne, h1, h2, h3, h4]

/-- C6 (witness): the entry whose category is `"wingding"`. -/
theorem ToPgType_category_present_witness :
    ([filledEntry][0]? = some filledEntry ∧ filledEntry.Type_ ≠ "")
      ∧ ∃ row, (LanguagesNonPgtype.ToPgType sampleLanguageTypes [filledEntry])[0]? = some row
          ∧ row.Type_.Valid = true
          ∧ (filledEntry.Type_ = "markup" →
              row.Type_.LanguageType = sampleLanguageTypes.LanguageTypeMarkup)
          ∧ (filledEntry.Type_ = "prose" →
              row.Type_.LanguageType = sampleLanguageTypes.LanguageTypeProse)
          ∧ (filledEntry.Type_ = "data" →
              row.Type_.LanguageType = sampleLanguageTypes.LanguageTypeData)
          ∧ (filledEntry.Type_ = "programming" →
              row.Type_.LanguageType = sampleLanguageTypes.LanguageTypeData)
          ∧ (filledEntry.Type_ ≠ "markup" → filledEntry.Type_ ≠ "prose" →
              filledEntry.Type_ ≠ "data" → filledEntry.Type_ ≠ "programming" →
              row.Type_.LanguageType = LanguageType.zero) :=
  ⟨⟨rfl, by decide⟩,
    ToPgType_category_present sampleLanguageTypes [filledEntry] 0 filledEntry rfl (by decide)⟩

/-- For every entry whose `Type` string is empty, the row `ToPgType` produces has the category
absent (`Valid = false`) and its backing value is the data constant `LanguageTypeData`, whatever
the values of the constants are. -/
theorem ToPgType_category_absent (C : LanguageTypeConsts) (l : LanguagesNonPgtype) (i : Nat)
    (lang : LanguageNonPgtype) (h : l[i]? = some lang) (he : lang.Type_ = "") :
    ∃ row, (l.ToPgType C)[i]? = some row
      ∧ row.Type_ = { LanguageType := C.LanguageTypeData, Valid := false } := by
  refine ⟨ToPgType.row C lang, ToPgType_getElem? C l i lang h, ?_⟩
  simp [ToPgType.row, he]

/-- The backing value of an absent category is the zero value of `LanguageType` exactly when
the constant `LanguageTypeData` is that zero value. -/
theorem ToPgType_category_absent_zero_iff (C : LanguageTypeConsts) (lang : LanguageNonPgtype)
    (he : lang.Type_ = "") :
    (ToPgType.row C lang).Type_.LanguageType = LanguageType.zero
      ↔ C.LanguageTypeData = LanguageType.zero := by
  simp [ToPgType.row, he]

/-- C7: with the constant `LanguageTypeData` as the spec gives it, for every entry whose `Type`
string is empty the row `ToPgType` produces has the category absent (`Valid = false`), and its
backing value is the zero value of the enumeration: the same value, the uninitialised
`LanguageType`, that the row of an entry with an unrecognized category receives. -/
theorem ToPgType_category_absent_zero (markup prose : LanguageType) (l : LanguagesNonPgtype)
    (i : Nat) (lang : LanguageNonPgtype) (h : l[i]? = some lang) (he : lang.Type_ = "") :
    ∃ row, (l.ToPgType (specLanguageTypes markup prose))[i]? = some row
      ∧ row.Type_.Valid = false
      ∧ row.Type_.LanguageType = LanguageType.zero
      ∧ ∀ other : LanguageNonPgtype, other.Type_ ≠ "" → other.Type_ ≠ "data" →
          other.Type_ ≠ "programming" → other.Type_ ≠ "markup" → other.Type_ ≠ "prose" →
          (ToPgType.row (specLanguageTypes markup prose) other).Type_.Valid = true
            ∧ (ToPgType.row (specLanguageTypes markup prose) other).Type_.LanguageType
                = row.Type_.LanguageType := by
  refine ⟨ToPgType.row (specLanguageTypes markup prose) lang,
    ToPgType_getElem? _ l i lang h, ?_, ?_, ?_⟩
  · simp [ToPgType.row, he]
  · simp [ToPgType.row, he, specLanguageTypes, LanguageTypeData]
  · intro other h0 h1 h2 h3 h4
    simp [ToPgType.row, he, h0, h1, h2, h3, h4, specLanguageTypes, LanguageTypeData]

/-- C7 (witness): the bare entry, second in a catalog. -/
theorem ToPgType_category_absent_zero_witness :
    ([filledEntry, bareEntry][1]? = some bareEntry ∧ bareEntry.Type_ = "")
      ∧ ∃ row, (LanguagesNonPgtype.ToPgType (specLanguageTypes "markup" "prose")
            [filledEntry, bareEntry])[1]? = some row
          ∧ row.Type_.Valid = false
          ∧ row.Type_.LanguageType = LanguageType.zero
          ∧ ∀ other : LanguageNonPgtype, other.Type_ ≠ "" → other.Type_ ≠ "data" →
              other.Type_ ≠ "programming" → other.Type_ ≠ "markup" → other.Type_ ≠ "prose" →
              (ToPgType.row (specLanguageTypes "markup" "prose") other).Type_.Valid = true
                ∧ (ToPgType.row (specLanguageTypes "markup" "prose") other).Type_.LanguageType
                    = row.Type_.LanguageType :=
  ⟨⟨rfl, rfl⟩,
    ToPgType_category_absent_zero "markup" "prose" [filledEntry, bareEntry] 1 bareEntry rfl rfl⟩

/-! ## Lists, line wrap and order -/

/-- C8: for every catalog, the row `ToPgType` produces for entry `i` has its interpreters field
equal to the entry's `Filenames`, hence not to the entry's `Interpreters` whenever the two lists
differ; and replacing the `Interpreters` of the entries of a catalog by any other lists leaves
the projected rows unchanged. -/
theorem ToPgType_interpreters (C : LanguageTypeConsts) (l : LanguagesNonPgtype) (i : Nat)
    (lang : LanguageNonPgtype) (h : l[i]? = some lang) :
    (∃ row, (l.ToPgType C)[i]? = some row
      ∧ row.Interpreters = lang.Filenames
      ∧ (lang.Filenames ≠ lang.Interpreters → row.Interpreters ≠ lang.Interpreters))
    ∧ (∀ other : List GoString,
        LanguagesNonPgtype.ToPgType C [{ lang with Interpreters := other }]
          = LanguagesNonPgtype.ToPgType C [lang])
    ∧ (∀ f : LanguageNonPgtype → List GoString,
        LanguagesNonPgtype.ToPgType C (l.map (fun r => { r with Interpreters := f r }))
          = l.ToPgType C) := by
  refine ⟨⟨ToPgType.row C lang, ToPgType_getElem? C l i lang h, rfl, fun hd => hd⟩, ?_, ?_⟩
  · intro other
    rfl
  · intro f
    rw [ToPgType_eq_map, ToPgType_eq_map, List.map_map]
    rfl

/-- C8 (witness): the filled entry, whose `Filenames` and `Interpreters` differ. -/
theorem ToPgType_interpreters_witness :
    [filledEntry][0]? = some filledEntry
      ∧ (∃ row, (LanguagesNonPgtype.ToPgType sampleLanguageTypes [filledEntry])[0]? = some row
          ∧ row.Interpreters = filledEntry.Filenames
          ∧ (filledEntry.Filenames ≠ filledEntry.Interpreters →
              row.Interpreters ≠ filledEntry.Interpreters))
      ∧ (∀ other : List GoString,
          LanguagesNonPgtype.ToPgType sampleLanguageTypes
              [{ filledEntry with Interpreters := other }]
            = LanguagesNonPgtype.ToPgType sampleLanguageTypes [filledEntry])
      ∧ (∀ f : LanguageNonPgtype → List GoString,
          LanguagesNonPgtype.ToPgType sampleLanguageTypes
              ([filledEntry].map (fun r => { r with Interpreters := f r }))
            = LanguagesNonPgtype.ToPgType sampleLanguageTypes [filledEntry]) :=
  ⟨rfl, ToPgType_interpreters sampleLanguageTypes [filledEntry] 0 filledEntry rfl⟩

/-- C9: `ToPgType` is a total function; for every catalog of `n` entries it returns exactly `n`
rows, and row `i` has the `Name`, `LanguageID`, `Aliases`, `Extensions` and `Filenames` of
entry `i` and a present line-wrap field (`Valid = true`) whose `Bool` is the entry's `Wrap`. The
two-entry catalog `Go`, `Rust` projects to exactly two rows with those names, in that order. -/
theorem ToPgType_total_ordered (C : LanguageTypeConsts) (l : LanguagesNonPgtype) :
    (l.ToPgType C).length = l.length
      ∧ (∀ (i : Nat) (lang : LanguageNonPgtype), l[i]? = some lang →
          ∃ row, (l.ToPgType C)[i]? = some row
            ∧ row.Name = lang.Name
            ∧ row.LanguageID = lang.LanguageID
            ∧ row.Aliases = lang.Aliases
            ∧ row.Extensions = lang.Extensions
            ∧ row.Filenames = lang.Filenames
            ∧ row.Wrap = { Bool := lang.Wrap, Valid := true })
      ∧ (goRustCatalog.ToPgType C).length = 2
      ∧ (goRustCatalog.ToPgType C).map Language.Name = ["Go", "Rust"] := by
  refine ⟨by simp [ToPgType_eq_map], ?_, by simp [ToPgType_eq_map, goRustCatalog],
    by simp [ToPgType_eq_map, goRustCatalog, ToPgType.row]⟩
  intro i lang h
  exact ⟨ToPgType.row C lang, ToPgType_getElem? C l i lang h, rfl, rfl, rfl, rfl, rfl, rfl⟩

/-- C9 (witness): the two-entry catalog `Go`, `Rust` with the sample constants. -/
theorem ToPgType_total_ordered_witness :
    (goRustCatalog.ToPgType sampleLanguageTypes).length = goRustCatalog.length
      ∧ (∀ (i : Nat) (lang : LanguageNonPgtype), goRustCatalog[i]? = some lang →
          ∃ row, (goRustCatalog.ToPgType sampleLanguageTypes)[i]? = some row
            ∧ row.Name = lang.Name
            ∧ row.LanguageID = lang.LanguageID
            ∧ row.Aliases = lang.Aliases
            ∧ row.Extensions = lang.Extensions
            ∧ row.Filenames = lang.Filenames
            ∧ row.Wrap = { Bool := lang.Wrap, Valid := true })
      ∧ (goRustCatalog.ToPgType sampleLanguageTypes).length = 2
      ∧ (goRustCatalog.ToPgType sampleLanguageTypes).map Language.Name = ["Go", "Rust"] :=
  ToPgType_total_ordered sampleLanguageTypes goRustCatalog

/-! ## Column order -/

/-- The field of a row that a column name denotes. The association of names and fields is the
one of `MarshalZerologObject`, which logs every field of the row under its column name. -/
def Language.column (l : Language) (name : GoString) : Option Any :=
  if name = "id" then some (.int32 l.ID)
  else if name = "name" then some (.string l.Name)
  else if name = "fs_name" then some (.Text l.FsName)
  else if name = "type" then some (.NullLanguageType l.Type_)
  else if name = "aliases" then some (.strings l.Aliases)
  else if name = "ace_mode" then some (.Text l.AceMode)
  else if name = "codemirror_mode" then some (.Text l.CodemirrorMode)
  else if name = "codemirror_mime_type" then some (.Text l.CodemirrorMimeType)
  else if name = "wrap" then some (.Bool l.Wrap)
  else if name = "extensions" then some (.strings l.Extensions)
  else if name = "filenames" then some (.strings l.Filenames)
  else if name = "interpreters" then some (.strings l.Interpreters)
  else if name = "language_id" then some (.int32 l.LanguageID)
  else if name = "color" then some (.Text l.Color)
  else if name = "tm_scope" then some (.Text l.TmScope)
  else if name = "group" then some (.Text l.Group)
  else none

/-- What the log shows of a value under a key: optional values are logged by their backing
value alone, as `MarshalZerologObject` does (`l.FsName.String`, `l.Wrap.Bool`, ...). -/
def Any.logged (key : GoString) : Any → LogField
  | .int32 v => .Int32 key v
  | .string v => .Str key v
  | .Text v => .Str key v.String
  | .NullLanguageType v => .Str key v.LanguageType
  | .strings v => .Strs key v
  | .Bool v => .Bool key v.Bool

theorem Values_row_columns (lang : Language) :
    LanguageColumns.map lang.column = (Values.row lang).map some := by
  simp [LanguageColumns, Language.column, Values.row]

theorem Values_row_logged (lang : Language) :
    List.zipWith Any.logged LanguageColumns (Values.row lang) = lang.MarshalZerologObject := by
  simp [LanguageColumns, Values.row, Language.MarshalZerologObject, Any.logged]

/-- C10: `LanguageColumns` is the list of the 16 column names `id, name, fs_name, type, aliases,
ace_mode, codemirror_mode, codemirror_mime_type, wrap, extensions, filenames, interpreters,
language_id, color, tm_scope, group` in that order; and at every valid cursor position (an
index `i` with `0 ≤ i < len(Languages)` and `i ≤ MaxInt32`) `Values` returns exactly 16 values,
the `k`-th of which is the field named by the `k`-th column of the current row, that is of
`Languages[i]` with the identifier `i - 1` that `Values` gives it. Logged under the column
names, the values are what `MarshalZerologObject` logs of that row. -/
theorem Values_matches_LanguageColumns (l : LanguageCopyFrom) (h0 : 0 ≤ l.i)
    (h1 : l.i < (l.Languages.length : Int)) (h2 : l.i ≤ MaxInt32) :
    LanguageColumns
        = [ "id", "name", "fs_name", "type", "aliases", "ace_mode", "codemirror_mode",
            "codemirror_mime_type", "wrap", "extensions", "filenames", "interpreters",
            "language_id", "color", "tm_scope", "group" ]
      ∧ LanguageColumns.length = 16
      ∧ ∃ lang values, l.Languages[l.i.toNat]? = some lang
          ∧ l.Values = .ret (some values) none
          ∧ values.length = 16
          ∧ (∀ k, k < 16 →
              ∃ name value, LanguageColumns[k]? = some name ∧ values[k]? = some value
                ∧ Language.column { lang with ID := l.i - 1 } name = some value)
          ∧ List.zipWith Any.logged LanguageColumns values
              = Language.MarshalZerologObject { lang with ID := l.i - 1 } := by
  refine ⟨rfl, rfl, ?_⟩
  obtain ⟨L, i⟩ := l
  simp only at h0 h1 h2
  have hi : i.toNat < L.length := by omega
  have hv := Values_at L i.toNat L[i.toNat] (List.getElem?_eq_getElem hi)
    (by rw [Int.toNat_of_nonneg h0]; exact h2)
  rw [Int.toNat_of_nonneg h0] at hv
  refine ⟨L[i.toNat], _, List.getElem?_eq_getElem hi, hv, rfl, ?_, Values_row_logged _⟩
  intro k hk
  have hc := Values_row_columns { L[i.toNat] with ID := i - 1 }
  have hlen : (Values.row { L[i.toNat] with ID := i - 1 }).length = 16 := rfl
  have hlen2 : LanguageColumns.length = 16 := rfl
  refine ⟨LanguageColumns[k], (Values.row { L[i.toNat] with ID := i - 1 })[k],
    List.getElem?_eq_getElem _, List.getElem?_eq_getElem _, ?_⟩
  have := congrArg (fun xs => xs[k]?) hc
  simpa [List.getElem?_map, List.getElem?_eq_getElem, hlen, hlen2, hk] using this

/-- C10 (witness): the cursor at index 2 of the three-row sample table. -/
theorem Values_matches_LanguageColumns_witness :
    LanguageColumns
        = [ "id", "name", "fs_name", "type", "aliases", "ace_mode", "codemirror_mode",
            "codemirror_mime_type", "wrap", "extensions", "filenames", "interpreters",
            "language_id", "color", "tm_scope", "group" ]
      ∧ LanguageColumns.length = 16
      ∧ ∃ lang values, sampleRows[(2 : Int).toNat]? = some lang
          ∧ (LanguageCopyFrom.mk sampleRows 2).Values = .ret (some values) none
          ∧ values.length = 16
          ∧ (∀ k, k < 16 →
              ∃ name value, LanguageColumns[k]? = some name ∧ values[k]? = some value
                ∧ Language.column { lang with ID := 2 - 1 } name = some value)
          ∧ List.zipWith Any.logged LanguageColumns values
              = Language.MarshalZerologObject { lang with ID := 2 - 1 } :=
  Values_matches_LanguageColumns (LanguageCopyFrom.mk sampleRows 2) (by decide) (by decide)
    (by decide)

/-! ## `Load` stops at the first entry that fails -/

/-- As long as the entries decode, `Load` appends them; at the first entry whose re-encoding or
decoding fails it returns, and the receiver keeps every entry appended before. -/
theorem Load_entries_decoded {B V E : Type} (env : LoadEnv B V E)
    (pre : List ((GoString × V) × LanguageNonPgtype)) (rest : List (GoString × V))
    (hpre : ∀ p ∈ pre, ∃ mv, env.Marshal p.1.2 = .ok mv ∧ env.Unmarshal mv = .ok p.2) :
    ∀ l : LanguagesNonPgtype,
      Load.entries env (pre.map Prod.fst ++ rest) l
        = Load.entries env rest (l ++ pre.map (fun p => { p.2 with Name := p.1.1 })) := by
  induction pre with
  | nil => intro l; simp
  | cons p pre ih =>
    intro l
    obtain ⟨mv, h1, h2⟩ := hpre p (List.mem_cons_self _ _)
    have ih2 := ih (fun q hq => hpre q (List.mem_cons_of_mem _ hq))
    obtain ⟨⟨k, v⟩, lang⟩ := p
    simp only at h1 h2
    rw [List.map_cons, List.cons_append, Load.entries]
    simp only [h1, h2]
    rw [ih2, List.map_cons, List.append_assoc]
    rfl

theorem Load_entries_fail {B V E : Type} (env : LoadEnv B V E) (k : GoString) (v : V)
    (rest : List (GoString × V)) (l : LanguagesNonPgtype)
    (hv : ∀ mv, env.Marshal v = .ok mv → ∃ e, env.Unmarshal mv = .error e) :
    Load.entries env ((k, v) :: rest) l = l := by
  cases h1 : env.Marshal v with
  | error e => simp [Load.entries, h1]
  | ok mv =>
    obtain ⟨e, h2⟩ := hv mv h1
    simp [Load.entries, h1, h2]

/-- When the fetch and the top-level decode succeed and the entry `(k, v)` fails after the
entries of `pre` decoded, the receiver that `Load` leaves holds the `pre.length` entries decoded
before the failing one (and none of those after it). -/
theorem Load_partial {B V E : Type} (env : LoadEnv B V E) (remote_path : GoString) (body : B)
    (pre : List ((GoString × V) × LanguageNonPgtype)) (k : GoString) (v : V)
    (rest : List (GoString × V)) (l : LanguagesNonPgtype)
    (hf : env.fetch remote_path = .ok body)
    (hu : env.UnmarshalMap body = .ok (pre.map Prod.fst ++ (k, v) :: rest))
    (hpre : ∀ p ∈ pre, ∃ mv, env.Marshal p.1.2 = .ok mv ∧ env.Unmarshal mv = .ok p.2)
    (hv : ∀ mv, env.Marshal v = .ok mv → ∃ e, env.Unmarshal mv = .error e) :
    LanguagesNonPgtype.Load env l remote_path
      = l ++ pre.map (fun p => { p.2 with Name := p.1.1 }) := by
  simp only [LanguagesNonPgtype.Load, hf, hu]
  rw [Load_entries_decoded env pre _ hpre, Load_entries_fail env k v rest _ hv]

/-- Example of a scalar of the document: an integer or a string. -/
inductive Scalar
  | int (n : Int)
  | str (s : GoString)
  deriving DecidableEq, Repr

/-- Example of a generic mapping value: the `type` and `language_id` fields of an entry. -/
structure RawEntry where
  type_ : GoString
  language_id : Scalar
  deriving DecidableEq, Repr

/-- Example environment: the fetch and the top-level decode succeed and the entries are visited
in the order of `doc`; the re-encoding never fails; the typed decode fails on an entry whose
`language_id` is a string scalar, which does not fit the `int32` field. -/
def sampleEnv (doc : List (GoString × RawEntry)) :
    LoadEnv (List (GoString × RawEntry)) RawEntry RawEntry :=
  { fetch := fun _ => .ok doc
    UnmarshalMap := fun body => .ok body
    Marshal := fun v => .ok v
    Unmarshal := fun mv =>
      match mv.language_id with
      | .int n => .ok { bareEntry with Name := "", Type_ := mv.type_, LanguageID := n }
      | .str s => .error ⟨"cannot unmarshal !!str " ++ s ++ " into int32"⟩ }

/-- A three-entry document whose second entry has the string `oops` as `language_id`. -/
def brokenDocument : List (GoString × RawEntry) :=
  [ ("Go", { type_ := "programming", language_id := .int 1 }),
    ("Bad", { type_ := "programming", language_id := .str "oops" }),
    ("Rust", { type_ := "programming", language_id := .int 2 }) ]

/-- C11 (the code at the failing input): on a document whose entries are visited in the order
`Go`, `Bad`, `Rust`, where `Bad` fails its decode, `Load` on an empty receiver leaves the entry
`Go` in the receiver, a partial catalog, and `migrate` hands the row of `Go` to the bulk copy.
When the same document is visited with `Bad` first, the receiver stays empty. -/
theorem Load_brokenDocument_partial :
    LanguagesNonPgtype.Load (sampleEnv brokenDocument) [] "languages.yml"
        = [{ bareEntry with Name := "Go", Type_ := "programming", LanguageID := 1 }]
      ∧ (migrate.Languages (sampleEnv brokenDocument) sampleLanguageTypes "languages.yml").map
          Language.Name = ["Go"]
      ∧ LanguagesNonPgtype.Load (sampleEnv [brokenDocument[1], brokenDocument[0],
          brokenDocument[2]]) [] "languages.yml" = [] := by
  refine ⟨rfl, ?_, rfl⟩
  decide

/-! ## `PromptForPickFromSlice` checks the upper bound only -/

/-- For an input that parses as the integer `choice`: at or above the length of the slice the
function returns the zero element, index 0 and an error; from 0 up to the length it returns
`slice[choice]`, the index `choice` and no error. -/
theorem PromptForPickFromSlice_nonneg {T : Type} (zero : T) (choice_str : GoString)
    (Atoi : GoString → Except GoError Int) (slice : List T) (choice : Int)
    (ha : Atoi choice_str = .ok choice) (h0 : 0 ≤ choice) :
    ((slice.length : Int) ≤ choice →
        PromptForPickFromSlice zero (choice_str, none) Atoi slice
          = .ret zero 0 (some ⟨"choice is not in list"⟩))
      ∧ (∀ item, slice[choice.toNat]? = some item →
          PromptForPickFromSlice zero (choice_str, none) Atoi slice = .ret item choice none) := by
  constructor
  · intro hge
    simp [PromptForPickFromSlice, ha, hge]
  · intro item hitem
    have hlt : choice.toNat < slice.length := by
      rcases List.getElem?_eq_some_iff.mp hitem with ⟨h, _⟩
      exact h
    have h1 : ¬ ((slice.length : Int) ≤ choice) := by omega
    have h2 : ¬ (choice < 0) := by omega
    simp [PromptForPickFromSlice, ha, h1, h2, hitem]

/-- C12 (the code at the failing input): for every slice, when the input parses as a negative
integer `-(n + 1)`, the function passes the check `choice >= len(slice)` and indexes the slice
at the negative index, which panics; no error is returned. -/
theorem PromptForPickFromSlice_negative_panics {T : Type} (zero : T) (choice_str : GoString)
    (slice : List T) (n : Nat) :
    PromptForPickFromSlice zero (choice_str, none) (fun _ => .ok (Int.negSucc n)) slice
      = .panic := by
  have h1 : ¬ ((slice.length : Int) ≤ Int.negSucc n) := by
    have := Int.negSucc_lt_zero n
    omega
  simp [PromptForPickFromSlice, h1, Int.negSucc_lt_zero]

/-! ## `OpenURL` leaves the URL out on Windows -/

/-- On darwin and in the default case, under WSL or not, the URL is among the arguments of the
command. -/
theorem OpenURL_command_has_url (GOOS : GoString) (isWSL : GoBool) (url : GoString)
    (h : GOOS ≠ "windows") : url ∈ (OpenURL.command GOOS isWSL url).2 := by
  unfold OpenURL.command
  by_cases hd : GOOS = "darwin"
  · simp [h, hd]
  · cases isWSL <;> simp [h, hd]

/-- C13 (the code at the failing input): on Windows the command is `cmd` with the arguments
`/c`, the empty string and `start`, whatever the URL is; the URL `https://example.com` is not
among them. -/
theorem OpenURL_command_windows :
    (∀ (isWSL : GoBool) (url : GoString),
        OpenURL.command "windows" isWSL url = ("cmd", ["/c", "", "start"]))
      ∧ "https://example.com" ∉ (OpenURL.command "windows" false "https://example.com").2 := by
  constructor
  · intro isWSL url
    simp [OpenURL.command]
  · decide

end Seer
